import Mathlib

/-!
# inmem: the DROP executor, transaction begin, and the driver registry

A shallow embedding of `engine/drop.go`, `driver/conn.go`, `driver/tx.go` and
`driver/driver.go`.  Go values that are mutated in place (the engine, the
connection, the driver registry) are threaded through explicitly; a Go run-time
panic is the `Except.error` branch of the result.
-/

namespace Inmem

/-! ## engine/parser: the instruction tree read by `dropExecutor` -/

/-- Modelled from the spec: the parser package (`parser.Decl`, `parser.DatabaseToken`,
`parser.TableToken`) is missing from the sources.  Token kinds are an enumeration
(CREATE, DROP, DATABASE, TABLE, SELECT, INSERT, identifier, literal, and the rest). -/
inductive Token where
  | CreateToken
  | DropToken
  | DatabaseToken
  | TableToken
  | SelectToken
  | InsertToken
  | IdentifierToken
  | LiteralToken
  | OtherToken (code : Nat)
  deriving DecidableEq, Repr

/-- Modelled from the spec: an instruction node carries a token kind, a lexeme and an
ordered list of child nodes (`parser.Decl` with fields `Token`, `Lexeme`, `Decl`). -/
inductive Decl where
  | mk (token : Token) (lexeme : String) (children : List Decl)

/-- Field `Token` of a node. -/
def Decl.Token : Decl → Token
  | .mk t _ _ => t

/-- Field `Lexeme` of a node. -/
def Decl.Lexeme : Decl → String
  | .mk _ l _ => l

/-- Field `Decl` of a node: its children (a nil slice and an empty slice are both `[]`). -/
def Decl.Decl : Decl → List Decl
  | .mk _ _ cs => cs

/-! ## engine: relations and the name-to-relation mapping -/

/-- Modelled from the spec: a relation is a name, ordered column definitions
(name, declared type) and ordered rows; the type is missing from the sources. -/
structure Relation where
  name : String
  columns : List (String × String)
  rows : List (List String)
  deriving DecidableEq, Repr

/-- The engine state read and written by the executors: the Go map
`relations map[string]*Relation`, as an association list read through `relation`. -/
structure Engine where
  relations : List (String × Relation)
  deriving DecidableEq, Repr

/-- Modelled from the spec: `e.relation(name)` looks the relation up by name in the
engine's mapping and yields nil (`none`) when there is none; the method is missing
from the sources. -/
def Engine.relation (e : Engine) (name : String) : Option Relation :=
  e.relations.lookup name

/-- Modelled from the spec: `e.drop(name)` removes the relation from the engine's
mapping (Go `delete`); the method is missing from the sources. -/
def Engine.drop (e : Engine) (name : String) : Engine :=
  { relations := e.relations.filter (fun p => p.1 != name) }

/-! ## engine/protocol: the engine side of a connection -/

/-- A reply primitive written on an `EngineConn` (the write methods of the interface,
as implemented by `TestEngineConn` in `engine_test.go`). -/
inductive Message where
  | result (lastInsertedID rowsAffected : Int)
  | error (msg : String)
  | rowHeader (header : List String)
  | row (row : List String)
  | rowEnd
  deriving DecidableEq, Repr

/-- An engine-side connection: the writes made on it so far, and its behaviour, which
says for every history and every write whether that write fails (`some err`) or
succeeds (`none`). -/
structure EngineConn where
  written : List Message
  behaviour : List Message → Message → Option String

/-- The call `conn.WriteResult(lastInsertedID, rowsAffected)`: the error it returns and
the connection afterwards. -/
def EngineConn.WriteResult (conn : EngineConn) (lastInsertedID rowsAffected : Int) :
    Option String × EngineConn :=
  (conn.behaviour conn.written (Message.result lastInsertedID rowsAffected),
   { conn with written := conn.written ++ [Message.result lastInsertedID rowsAffected] })

/-- A Go run-time panic. -/
inductive Panic where
  | indexOutOfRange (index length : Nat)
  deriving DecidableEq, Repr

/-- Slice indexing `xs[i]`, which panics when `i` is out of range. -/
def index {α : Type} (xs : List α) (i : Nat) : Except Panic α :=
  match xs.get? i with
  | some x => pure x
  | none => throw (Panic.indexOutOfRange i xs.length)

/-- What a call of an executor returns: the error value (`none` is Go `nil`), the
engine afterwards and the connection afterwards. -/
structure Returned where
  err : Option String
  engine : Engine
  conn : EngineConn

/-- The function `dropExecutor` of `engine/drop.go`. -/
def dropExecutor (e : Engine) (dropDecl : Decl) (conn : EngineConn) :
    Except Panic Returned := do
  let d0 ← index dropDecl.Decl 0
  let isDatabase := decide (d0.Token = Token.DatabaseToken)
  let d0' ← index dropDecl.Decl 0
  let isTable := decide (d0'.Token = Token.TableToken)
  let isDropable := isDatabase || isTable
  -- Should have table token
  if dropDecl.Decl.isEmpty ||
      dropDecl.Decl.length != 1 ||
      !isDropable ||
      d0.Decl.length != 1 then
    return { err := some "unexpected drop arguments", engine := e, conn := conn }
  if isDatabase then
    let w := conn.WriteResult 0 1
    return { err := w.1, engine := e, conn := w.2 }
  let d00 ← index d0.Decl 0
  let table := d00.Lexeme
  match e.relation table with
  | none =>
    return { err := some ("relation '" ++ table ++ "' not found"), engine := e, conn := conn }
  | some _ =>
    let e' := e.drop table
    let w := conn.WriteResult 0 1
    return { err := w.1, engine := e', conn := w.2 }

/-! ### Concrete inputs for the DROP executor -/

/-- An engine holding the relation `account (id INT, email TEXT)` of `TestDrop`. -/
def accountEngine : Engine :=
  { relations := [("account",
      { name := "account", columns := [("id", "INT"), ("email", "TEXT")], rows := [] })] }

/-- The instruction tree of `DROP TABLE account`. -/
def dropTableAccount : Decl :=
  Decl.mk Token.DropToken "DROP"
    [Decl.mk Token.TableToken "TABLE" [Decl.mk Token.IdentifierToken "account" []]]

/-- The instruction tree of `DROP DATABASE TestDrop`. -/
def dropDatabaseTestDrop : Decl :=
  Decl.mk Token.DropToken "DROP"
    [Decl.mk Token.DatabaseToken "DATABASE" [Decl.mk Token.IdentifierToken "TestDrop" []]]

/-- A DROP node without any child. -/
def dropNothing : Decl :=
  Decl.mk Token.DropToken "DROP" []

/-- A connection on which every write succeeds, like `TestEngineConn`. -/
def goodConn : EngineConn :=
  { written := [], behaviour := fun _ _ => none }

/-- A connection on which every write fails. -/
def brokenConn : EngineConn :=
  { written := [], behaviour := fun _ _ => some "write failed" }

/-! ## driver/tx.go and driver/conn.go: sessions and transactions -/

/-- The type `Conn` of `driver/conn.go`: the protocol handle of the session and a pointer
to the `Server` record it belongs to (an address in the heap of `Server` records).  The
mutex is left out. -/
structure Conn where
  conn : Nat
  parent : Nat
  deriving DecidableEq, Repr

/-- The type `Tx` of `driver/tx.go`; its only field is the session. -/
structure Tx where
  conn : Conn
  deriving DecidableEq, Repr

/-- The type `driver.TxOptions` of the standard library: an isolation level (a Go `int`)
and the read-only flag. -/
structure TxOptions where
  Isolation : Int
  ReadOnly : Bool
  deriving DecidableEq, Repr

/-- The constant `sql.LevelDefault` of the standard library, the first of its enumeration. -/
def LevelDefault : Int := 0

/-- The function `NewTransaction` of `driver/tx.go`. -/
def NewTransaction (c : Conn) : Tx :=
  { conn := c }

/-- The method `Conn.Begin`: the transaction and the error (`none` is Go `nil`). -/
def Conn.Begin (c : Conn) : Option Tx × Option String :=
  (some (NewTransaction c), none)

/-- The method `Conn.BeginTx`: the transaction and the error (`none` is Go `nil`). -/
def Conn.BeginTx (c : Conn) (opts : TxOptions) : Option Tx × Option String :=
  if opts.Isolation ≠ LevelDefault then
    (none, some "isolation level is yet not supported")
  else
    c.Begin

/-! ## The standard library's `strings.SplitN` and `strings.Split`

Strings are sequences of characters and the separator is one character; every
separator used by `driver.go` is a single ASCII character. -/

/-- The first occurrence of `sep`: the text before it and the text after it
(`strings.Index` followed by the two slices `s[:m]` and `s[m+1:]`). -/
def cut (sep : Char) : List Char → Option (List Char × List Char)
  | [] => none
  | c :: cs =>
    if c = sep then some ([], cs)
    else
      match cut sep cs with
      | some (a, b) => some (c :: a, b)
      | none => none

/-- The loop of `strings.genSplit`: at most `k` cuts, then the unsplit remainder. -/
def genSplit (sep : Char) : Nat → List Char → List (List Char)
  | 0, s => [s]
  | k + 1, s =>
    match cut sep s with
    | some (a, rest) => a :: genSplit sep k rest
    | none => [s]

/-- The function `strings.SplitN(s, sep, n)`: no piece when `n = 0`, every piece
when `n < 0`, at most `n` pieces otherwise.  (The library also caps `n` at
`len(s) + 1`, which bounds the allocation and not the result.) -/
def SplitN (s : String) (sep : Char) (n : Int) : List String :=
  if n = 0 then []
  else if n < 0 then (genSplit sep (s.data.count sep) s.data).map String.mk
  else (genSplit sep (n.toNat - 1) s.data).map String.mk

/-- The function `strings.Split(s, sep)`, which is `SplitN` with a count of `-1`. -/
def Split (s : String) (sep : Char) : List String :=
  SplitN s sep (-1)

/-! ## driver/driver.go: the connection string -/

/-- The type `connConf`; `Timeout` is a `time.Duration`, a number of nanoseconds. -/
structure connConf where
  Proto : String := ""
  Addr : String := ""
  Laddr : String := ""
  Db : String := ""
  Password : String := ""
  User : String := ""
  Timeout : Int := 0
  deriving DecidableEq, Repr

/-- The loop over `options[1:]` in `parseConnectionURI`.  `Except.error err` is the
early `return nil, err`; `ParseDuration` is the standard library's
`time.ParseDuration`, taken as a parameter. -/
def parseOptions (ParseDuration : String → Except String Int) (c : connConf) :
    List String → Except String connConf
  | [] => Except.ok c
  | o :: os =>
    let kv := SplitN o '=' 2
    let k := match kv with
      | [k, _] => k
      | _ => o
    let v := match kv with
      | [_, v] => v
      | _ => "true"
    if k = "laddr" then
      parseOptions ParseDuration { c with Laddr := v } os
    else if k = "timeout" then
      match ParseDuration v with
      | Except.error err => Except.error err
      | Except.ok timeout => parseOptions ParseDuration { c with Timeout := timeout } os
    else
      Except.error ("Unknown option: " ++ k)

/-- The tail of `parseConnectionURI`, from the comment `Parse database part of URI`. -/
def parseDatabasePart (c : connConf) (pd : List String) :
    Except Panic (Option connConf × Option String) := do
  let pd0 ← index pd 0
  let dup := SplitN pd0 '/' 3
  if dup.length != 3 then
    -- Wrong database part of URI
    return (some c, none)
  let dup0 ← index dup 0
  let dup1 ← index dup 1
  let dup2 ← index dup 2
  return (some { c with Db := dup0, User := dup1, Password := dup2 }, none)

/-- The function `parseConnectionURI` of `driver/driver.go`: the configuration
(`none` is Go `nil`) and the error (`none` is Go `nil`). -/
def parseConnectionURI (ParseDuration : String → Except String Int) (uri : String) :
    Except Panic (Option connConf × Option String) := do
  let c : connConf := {}
  let uri := if uri = "" then "default" else uri
  let pd := SplitN uri '*' 2
  if pd.length = 2 then
    -- Parse protocol part of URI
    let pd0 ← index pd 0
    let p := SplitN pd0 ':' 2
    if p.length != 2 then
      -- Wrong protocol part of URI
      return (some c, none)
    let p0 ← index p 0
    let c := { c with Proto := p0 }
    let p1 ← index p 1
    let options := Split p1 ','
    let options0 ← index options 0
    let c := { c with Addr := options0 }
    match parseOptions ParseDuration c (options.drop 1) with
    | Except.error err => return (none, some err)
    | Except.ok c =>
      -- Remove protocol part
      parseDatabasePart c (pd.drop 1)
  else
    parseDatabasePart c pd

/-- The key of an option as the documentation describes it: the text before the first
`=`, or the whole item when it has no `=`. -/
def optionKey (o : String) : String :=
  String.mk (o.data.takeWhile (fun ch => ch != '='))

/-- The options part of a connection string: every option preceded by a comma. -/
def joinOptions : List String → String
  | [] => ""
  | o :: os => "," ++ o ++ joinOptions os

/-! ## driver/driver.go: the registry of servers -/

/-- The type `Server`: pointers to its endpoint and to its engine, the connection
string, and the count of live sessions.  The field `driver`, which points back to the
one `Driver`, and the mutex are left out. -/
structure Server where
  endpoint : Nat
  engine : Nat
  dsn : String
  connCount : Int
  deriving DecidableEq, Repr

/-- The objects a `Driver` points to: the `Server` records allocated so far (a pointer
to a record is its position) and the numbers of engines and of endpoint pairs created
so far (the next one created gets that number as its identity). -/
structure Heap where
  servers : List Server
  engines : Nat
  endpoints : Nat
  deriving DecidableEq, Repr

/-- The type `Driver`: the Go map `servers map[string]*Server`, as an association list
read through `Driver.lookup`. -/
structure Driver where
  servers : List (String × Nat)
  deriving DecidableEq, Repr

/-- The function `NewDriver`. -/
def NewDriver : Driver :=
  { servers := [] }

/-- The heap before anything is allocated. -/
def Heap.empty : Heap :=
  { servers := [], engines := 0, endpoints := 0 }

/-- The map read `rs.servers[dsn]`. -/
def Driver.lookup (rs : Driver) (dsn : String) : Option Nat :=
  rs.servers.lookup dsn

/-- The map write `rs.servers[dsn] = s`. -/
def Driver.store (rs : Driver) (dsn : String) (s : Nat) : Driver :=
  { servers := (dsn, s) :: rs.servers.filter (fun p => p.1 != dsn) }

/-- The engine a `Server` pointer leads to (`none` when no record is at that address). -/
def Heap.engineOf (h : Heap) (s : Nat) : Option Nat :=
  (h.servers.map Server.engine)[s]?

/-- The statement `s.connCount++` on the record at position `s`. -/
def bumpConnCount : List Server → Nat → List Server
  | [], _ => []
  | r :: rs, 0 => { r with connCount := r.connCount + 1 } :: rs
  | r :: rs, s + 1 => r :: bumpConnCount rs s

/-- The method `Server.openingConn`, on the record at address `s`. -/
def openingConn (h : Heap) (s : Nat) : Heap :=
  { h with servers := bumpConnCount h.servers s }

/-- The function `newConn` of `driver/conn.go`. -/
def newConn (h : Heap) (conn : Nat) (parent : Nat) : Conn × Heap :=
  ({ conn := conn, parent := parent }, openingConn h parent)

/-- What the calls that `Open` makes outside of `driver.go` answer in one invocation:
the error of `engine.New`, and the handle and the error of the endpoint's `New`. -/
structure OpenEnv where
  engineNewErr : Option String
  driverConn : Nat
  endpointNewErr : Option String
  deriving DecidableEq, Repr

/-- What `Open` returns, with the registry and the heap afterwards. -/
structure Opened where
  conn : Option Conn
  err : Option String
  driver : Driver
  heap : Heap
  deriving DecidableEq, Repr

/-- The method `Driver.Open` of `driver/driver.go`.  The call `endpoints(connConf)`
has one branch, which creates a pair of channel endpoints and never fails. -/
def Driver.Open (ParseDuration : String → Except String Int) (rs : Driver) (h : Heap)
    (env : OpenEnv) (dsn : String) : Except Panic Opened := do
  let parsed ← parseConnectionURI ParseDuration dsn
  if parsed.2 ≠ none then
    return { conn := none, err := parsed.2, driver := rs, heap := h }
  match rs.lookup dsn with
  | none =>
    -- endpoints(connConf)
    let driverEndpoint := h.endpoints
    let h := { h with endpoints := h.endpoints + 1 }
    -- engine.New(engineEndpoint)
    if env.engineNewErr ≠ none then
      return { conn := none, err := env.engineNewErr, driver := rs, heap := h }
    let engine := h.engines
    let h := { h with engines := h.engines + 1 }
    -- driverEndpoint.New(dsn)
    if env.endpointNewErr ≠ none then
      return { conn := none, err := env.endpointNewErr, driver := rs, heap := h }
    let dsnServer := h.servers.length
    let h := { h with servers := h.servers ++
      [{ endpoint := driverEndpoint, engine := engine, dsn := dsn, connCount := 0 }] }
    let rs := rs.store dsn dsnServer
    let c := newConn h env.driverConn dsnServer
    return { conn := some c.1, err := none, driver := rs, heap := c.2 }
  | some dsnServer =>
    let c := newConn h env.driverConn dsnServer
    return { conn := some c.1, err := env.endpointNewErr, driver := rs, heap := c.2 }

/-- A sequence of calls of `Open`, each with a connection string and with what the
outside calls answer: the session returned by every call, next to its connection
string, and the registry and the heap at the end. -/
def Driver.Opens (ParseDuration : String → Except String Int) (rs : Driver) (h : Heap) :
    List (OpenEnv × String) → Except Panic (List (String × Option Conn) × Driver × Heap)
  | [] => Except.ok ([], rs, h)
  | (env, dsn) :: rest =>
    match Driver.Open ParseDuration rs h env dsn with
    | Except.error p => Except.error p
    | Except.ok out =>
      match Driver.Opens ParseDuration out.driver out.heap rest with
      | Except.error p => Except.error p
      | Except.ok (sessions, rs', h') => Except.ok ((dsn, out.conn) :: sessions, rs', h')

/-- The registry and its heap are well formed: the map has one entry for a connection
string, no `Server` record is stored under two connection strings, every stored
pointer leads to a record, no engine belongs to two records, and every engine of a
record has been created. -/
def WellFormed (rs : Driver) (h : Heap) : Prop :=
  (rs.servers.map Prod.fst).Nodup ∧
  (rs.servers.map Prod.snd).Nodup ∧
  (∀ p ∈ rs.servers, p.2 < h.servers.length) ∧
  (h.servers.map Server.engine).Nodup ∧
  (∀ e ∈ h.servers.map Server.engine, e < h.engines)

/-! ## Theorems: the DROP executor -/

/-- Looking up a key after filtering that key out finds nothing. -/
theorem lookup_filter_self {β : Type} (t : String) (ps : List (String × β)) :
    (ps.filter (fun p => p.1 != t)).lookup t = none := by
  induction ps with
  | nil => rfl
  | cons p ps ih =>
    obtain ⟨k, v⟩ := p
    by_cases hk : k = t
    · have hf : ((k, v).1 != t) = false := by simp [hk]
      rw [List.filter_cons_of_neg (by simp [hf])]
      exact ih
    · have hf : ((k, v).1 != t) = true := by simp [hk]
      have hne : (t == k) = false := by
        simp only [beq_eq_false_iff_ne]
        exact fun h => hk h.symm
      have hc : List.filter (fun p : String × β => p.1 != t) ((k, v) :: ps)
          = (k, v) :: List.filter (fun p : String × β => p.1 != t) ps :=
        List.filter_cons_of_pos hf
      rw [hc, List.lookup_cons, hne]
      exact ih

/-- Filtering a key out does not change the lookup of any other key. -/
theorem lookup_filter_other {β : Type} (t u : String) (hu : u ≠ t) (ps : List (String × β)) :
    (ps.filter (fun p => p.1 != t)).lookup u = ps.lookup u := by
  induction ps with
  | nil => rfl
  | cons p ps ih =>
    obtain ⟨k, v⟩ := p
    by_cases hk : k = t
    · have hf : ((k, v).1 != t) = false := by simp [hk]
      have hne : (u == k) = false := by
        simp only [beq_eq_false_iff_ne]
        exact fun h => hu (h.trans hk)
      rw [List.filter_cons_of_neg (by simp [hf]), List.lookup_cons, hne]
      exact ih
    · have hf : ((k, v).1 != t) = true := by simp [hk]
      have hc : List.filter (fun p : String × β => p.1 != t) ((k, v) :: ps)
          = (k, v) :: List.filter (fun p : String × β => p.1 != t) ps :=
        List.filter_cons_of_pos hf
      rw [hc, List.lookup_cons, List.lookup_cons, ih]

/-- Removing a name from the mapping makes its lookup fail. -/
theorem Engine.relation_drop_self (e : Engine) (t : String) :
    (e.drop t).relation t = none :=
  lookup_filter_self t e.relations

/-- Removing a name from the mapping leaves the lookup of every other name as it was. -/
theorem Engine.relation_drop_other (e : Engine) (t u : String) (hu : u ≠ t) :
    (e.drop t).relation u = e.relation u :=
  lookup_filter_other t u hu e.relations

/-- What `dropExecutor` does on a well-shaped DROP TABLE node. -/
theorem dropExecutor_table (e : Engine) (dropDecl d0 n : Decl) (conn : EngineConn)
    (h1 : dropDecl.Decl = [d0]) (h2 : d0.Token = Token.TableToken) (h3 : d0.Decl = [n]) :
    dropExecutor e dropDecl conn =
      match e.relation n.Lexeme with
      | none => Except.ok
          { err := some ("relation '" ++ n.Lexeme ++ "' not found"), engine := e, conn := conn }
      | some _ => Except.ok
          { err := (conn.WriteResult 0 1).1, engine := e.drop n.Lexeme,
            conn := (conn.WriteResult 0 1).2 } := by
  cases hr : e.relation n.Lexeme <;>
    simp [dropExecutor, index, h1, h2, h3, hr, bind, Except.bind, pure, Except.pure]

/-- What `dropExecutor` does on a well-shaped DROP DATABASE node. -/
theorem dropExecutor_database (e : Engine) (dropDecl d0 n : Decl) (conn : EngineConn)
    (h1 : dropDecl.Decl = [d0]) (h2 : d0.Token = Token.DatabaseToken) (h3 : d0.Decl = [n]) :
    dropExecutor e dropDecl conn =
      Except.ok { err := (conn.WriteResult 0 1).1, engine := e,
                  conn := (conn.WriteResult 0 1).2 } := by
  simp [dropExecutor, index, h1, h2, h3, bind, Except.bind, pure, Except.pure]

/-- A DROP node without children makes `dropExecutor` panic on its first line. -/
theorem dropExecutor_no_child (e : Engine) (dropDecl : Decl) (conn : EngineConn)
    (h : dropDecl.Decl = []) :
    dropExecutor e dropDecl conn = Except.error (Panic.indexOutOfRange 0 0) := by
  simp [dropExecutor, index, h, bind, Except.bind, throw, throwThe, MonadExceptOf.throw]

/-- A DROP node with at least one child that deviates from the required shape is
answered with the shape error, and nothing else happens. -/
theorem dropExecutor_bad_shape (e : Engine) (dropDecl d0 : Decl) (rest : List Decl)
    (conn : EngineConn) (h : dropDecl.Decl = d0 :: rest)
    (hbad : rest ≠ [] ∨ (d0.Token ≠ Token.DatabaseToken ∧ d0.Token ≠ Token.TableToken) ∨
      d0.Decl.length ≠ 1) :
    dropExecutor e dropDecl conn =
      Except.ok { err := some "unexpected drop arguments", engine := e, conn := conn } := by
  have hcond : (dropDecl.Decl.isEmpty ||
      dropDecl.Decl.length != 1 ||
      !(decide (d0.Token = Token.DatabaseToken) || decide (d0.Token = Token.TableToken)) ||
      d0.Decl.length != 1) = true := by
    rcases hbad with hr | ht | hl
    · cases rest with
      | nil => exact absurd rfl hr
      | cons r rs => simp [h]
    · simp [ht.1, ht.2]
    · simp [hl]
  simp only [dropExecutor, index, h, List.get?, bind, Except.bind, pure, Except.pure]
  rw [← h, if_pos hcond]

/-- Every call of `dropExecutor` that returns either leaves the engine as it was, or
is a well-shaped DROP TABLE of a present relation, which removes that relation and
returns what `WriteResult(0, 1)` returns. -/
theorem dropExecutor_returned (e : Engine) (dropDecl : Decl) (conn : EngineConn)
    (ret : Returned) (h : dropExecutor e dropDecl conn = Except.ok ret) :
    ret.engine = e ∨
      ∃ d0 n r, dropDecl.Decl = [d0] ∧ d0.Token = Token.TableToken ∧ d0.Decl = [n] ∧
        e.relation n.Lexeme = some r ∧ ret.engine = e.drop n.Lexeme ∧
        ret.err = (conn.WriteResult 0 1).1 ∧ ret.conn = (conn.WriteResult 0 1).2 := by
  cases hd : dropDecl.Decl with
  | nil => rw [dropExecutor_no_child e dropDecl conn hd] at h; cases h
  | cons d0 rest =>
    by_cases hbad : rest ≠ [] ∨
        (d0.Token ≠ Token.DatabaseToken ∧ d0.Token ≠ Token.TableToken) ∨ d0.Decl.length ≠ 1
    · rw [dropExecutor_bad_shape e dropDecl d0 rest conn hd hbad] at h
      cases h
      exact Or.inl rfl
    · simp only [not_or, not_and_or, not_not] at hbad
      obtain ⟨hrest, htok, hlen⟩ := hbad
      subst hrest
      obtain ⟨n, hn⟩ := List.length_eq_one.mp hlen
      rcases htok with hdb | htb
      · rw [dropExecutor_database e dropDecl d0 n conn hd hdb hn] at h
        cases h
        exact Or.inl rfl
      · rw [dropExecutor_table e dropDecl d0 n conn hd htb hn] at h
        cases hr : e.relation n.Lexeme with
        | none =>
          rw [hr] at h
          cases h
          exact Or.inl rfl
        | some r =>
          rw [hr] at h
          cases h
          exact Or.inr ⟨d0, n, r, rfl, htb, hn, hr, rfl, rfl, rfl⟩

/-! ### The claims about `dropExecutor` -/

/-- C1: on a well-shaped DROP TABLE node naming `t`, when the engine's mapping has no
relation named `t`, `dropExecutor` returns the error `relation '<t>' not found`, writes
nothing on the connection and leaves the engine as it was. -/
theorem dropExecutor_table_not_found (e : Engine) (dropDecl d0 n : Decl) (conn : EngineConn)
    (t : String) (h1 : dropDecl.Decl = [d0]) (h2 : d0.Token = Token.TableToken)
    (h3 : d0.Decl = [n]) (h4 : n.Lexeme = t) (habsent : e.relation t = none) :
    dropExecutor e dropDecl conn =
      Except.ok { err := some ("relation '" ++ t ++ "' not found"), engine := e,
                  conn := conn } := by
  subst h4
  rw [dropExecutor_table e dropDecl d0 n conn h1 h2 h3, habsent]

/-- Witness of C1: `DROP TABLE account` on an engine without relations. -/
theorem dropExecutor_table_not_found_witness :
    dropExecutor { relations := [] } dropTableAccount goodConn =
      Except.ok { err := some "relation 'account' not found", engine := { relations := [] },
                  conn := goodConn } :=
  dropExecutor_table_not_found { relations := [] } dropTableAccount
    (Decl.mk Token.TableToken "TABLE" [Decl.mk Token.IdentifierToken "account" []])
    (Decl.mk Token.IdentifierToken "account" []) goodConn "account" rfl rfl rfl rfl rfl

/-- C2: on a well-shaped DROP TABLE node naming `t`, when a relation named `t` is
present, `dropExecutor` returns, removes exactly `t` from the mapping (every other name
maps to what it mapped to), makes exactly one write, the write-result `(0, 1)`, returns
the result of that write, and a second DROP TABLE `t` on the resulting engine fails
with `relation '<t>' not found`. -/
theorem dropExecutor_table_present (e : Engine) (dropDecl d0 n : Decl) (conn : EngineConn)
    (t : String) (r : Relation) (h1 : dropDecl.Decl = [d0])
    (h2 : d0.Token = Token.TableToken) (h3 : d0.Decl = [n]) (h4 : n.Lexeme = t)
    (hpresent : e.relation t = some r) :
    ∃ ret, dropExecutor e dropDecl conn = Except.ok ret ∧
      ret.engine = e.drop t ∧
      ret.engine.relation t = none ∧
      (∀ u, u ≠ t → ret.engine.relation u = e.relation u) ∧
      ret.conn.written = conn.written ++ [Message.result 0 1] ∧
      ret.conn.behaviour = conn.behaviour ∧
      ret.err = conn.behaviour conn.written (Message.result 0 1) ∧
      ret.err = (conn.WriteResult 0 1).1 ∧
      ∀ conn2, dropExecutor ret.engine dropDecl conn2 =
        Except.ok { err := some ("relation '" ++ t ++ "' not found"), engine := ret.engine,
                    conn := conn2 } := by
  subst h4
  refine ⟨{ err := (conn.WriteResult 0 1).1, engine := e.drop n.Lexeme,
            conn := (conn.WriteResult 0 1).2 },
    ?_, rfl, Engine.relation_drop_self e _, ?_, rfl, rfl, rfl, rfl, ?_⟩
  · rw [dropExecutor_table e dropDecl d0 n conn h1 h2 h3, hpresent]
  · intro u hu
    exact Engine.relation_drop_other e _ u hu
  · intro conn2
    rw [dropExecutor_table _ dropDecl d0 n conn2 h1 h2 h3, Engine.relation_drop_self]

/-- Witness of C2: `DROP TABLE account` on the engine that holds `account`. -/
theorem dropExecutor_table_present_witness :
    ∃ ret, dropExecutor accountEngine dropTableAccount goodConn = Except.ok ret ∧
      ret.engine = accountEngine.drop "account" ∧
      ret.engine.relation "account" = none ∧
      (∀ u, u ≠ "account" → ret.engine.relation u = accountEngine.relation u) ∧
      ret.conn.written = goodConn.written ++ [Message.result 0 1] ∧
      ret.conn.behaviour = goodConn.behaviour ∧
      ret.err = goodConn.behaviour goodConn.written (Message.result 0 1) ∧
      ret.err = (goodConn.WriteResult 0 1).1 ∧
      ∀ conn2, dropExecutor ret.engine dropTableAccount conn2 =
        Except.ok { err := some ("relation '" ++ "account" ++ "' not found"),
                    engine := ret.engine, conn := conn2 } :=
  dropExecutor_table_present accountEngine dropTableAccount
    (Decl.mk Token.TableToken "TABLE" [Decl.mk Token.IdentifierToken "account" []])
    (Decl.mk Token.IdentifierToken "account" []) goodConn "account"
    { name := "account", columns := [("id", "INT"), ("email", "TEXT")], rows := [] }
    rfl rfl rfl rfl rfl

/-- C3: on a well-shaped DROP DATABASE node, whatever database it names,
`dropExecutor` returns, makes exactly one write, the write-result `(0, 1)`, returns the
result of that write (so it succeeds whenever the write succeeds) and leaves the engine
as it was. -/
theorem dropExecutor_database_noop (e : Engine) (dropDecl d0 n : Decl) (conn : EngineConn)
    (h1 : dropDecl.Decl = [d0]) (h2 : d0.Token = Token.DatabaseToken) (h3 : d0.Decl = [n]) :
    ∃ ret, dropExecutor e dropDecl conn = Except.ok ret ∧
      ret.engine = e ∧
      ret.conn.written = conn.written ++ [Message.result 0 1] ∧
      ret.conn.behaviour = conn.behaviour ∧
      ret.err = conn.behaviour conn.written (Message.result 0 1) ∧
      ret.err = (conn.WriteResult 0 1).1 ∧
      ((conn.WriteResult 0 1).1 = none → ret.err = none) :=
  ⟨{ err := (conn.WriteResult 0 1).1, engine := e, conn := (conn.WriteResult 0 1).2 },
    dropExecutor_database e dropDecl d0 n conn h1 h2 h3, rfl, rfl, rfl, rfl, rfl, id⟩

/-- Witness of C3: `DROP DATABASE TestDrop` on the engine that holds `account`. -/
theorem dropExecutor_database_noop_witness :
    ∃ ret, dropExecutor accountEngine dropDatabaseTestDrop goodConn = Except.ok ret ∧
      ret.engine = accountEngine ∧
      ret.conn.written = goodConn.written ++ [Message.result 0 1] ∧
      ret.conn.behaviour = goodConn.behaviour ∧
      ret.err = goodConn.behaviour goodConn.written (Message.result 0 1) ∧
      ret.err = (goodConn.WriteResult 0 1).1 ∧
      ((goodConn.WriteResult 0 1).1 = none → ret.err = none) :=
  dropExecutor_database_noop accountEngine dropDatabaseTestDrop
    (Decl.mk Token.DatabaseToken "DATABASE" [Decl.mk Token.IdentifierToken "TestDrop" []])
    (Decl.mk Token.IdentifierToken "TestDrop" []) goodConn rfl rfl rfl

/-- C4, at the failing input: on a DROP node whose child list is empty, `dropExecutor`
does not return the shape error; it panics with an index out of range, because the
first child is read before the child list is checked. -/
theorem dropExecutor_no_child_panics (e : Engine) (conn : EngineConn) :
    dropExecutor e dropNothing conn = Except.error (Panic.indexOutOfRange 0 0) ∧
      dropExecutor e dropNothing conn ≠
        Except.ok { err := some "unexpected drop arguments", engine := e, conn := conn } := by
  have h := dropExecutor_no_child e dropNothing conn rfl
  refine ⟨h, ?_⟩
  rw [h]
  intro hc
  cases hc

/-- C5, counterexample: `DROP TABLE account` on a connection whose write fails returns
the error of the write, and the relation is gone all the same. -/
theorem dropExecutor_error_after_removal :
    dropExecutor accountEngine dropTableAccount brokenConn =
      Except.ok { err := some "write failed", engine := { relations := [] },
                  conn := { written := [Message.result 0 1],
                            behaviour := brokenConn.behaviour } } ∧
    ({ relations := [] } : Engine) ≠ accountEngine ∧
    accountEngine.relation "account" ≠ none ∧
    Engine.relation { relations := [] } "account" = none :=
  ⟨rfl, by decide, by decide, by decide⟩

/-- C5, amended: when `dropExecutor` returns an error and the connection's
`WriteResult(0, 1)` does not fail, the engine is as it was before the call; the engine
changes only on a well-shaped DROP TABLE of a present relation, and then `dropExecutor`
returns what `WriteResult(0, 1)` returns, success or the error of the write. -/
theorem dropExecutor_error_frame (e : Engine) (dropDecl : Decl) (conn : EngineConn)
    (ret : Returned) (h : dropExecutor e dropDecl conn = Except.ok ret) :
    ((conn.WriteResult 0 1).1 = none → ret.err ≠ none → ret.engine = e) ∧
    (ret.engine ≠ e →
      ∃ d0 n r, dropDecl.Decl = [d0] ∧ d0.Token = Token.TableToken ∧ d0.Decl = [n] ∧
        e.relation n.Lexeme = some r ∧ ret.engine = e.drop n.Lexeme ∧
        ret.err = (conn.WriteResult 0 1).1 ∧ ret.conn = (conn.WriteResult 0 1).2) := by
  rcases dropExecutor_returned e dropDecl conn ret h with hsame | hdrop
  · exact ⟨fun _ _ => hsame, fun hne => absurd hsame hne⟩
  · refine ⟨fun hw herr => ?_, fun _ => hdrop⟩
    obtain ⟨_, _, _, _, _, _, _, _, herr', _⟩ := hdrop
    rw [herr', hw] at herr
    exact absurd rfl herr

/-- Witness of C5, amended: `DROP TABLE account` on an engine without relations, on a
connection whose writes succeed. -/
theorem dropExecutor_error_frame_witness :
    dropExecutor { relations := [] } dropTableAccount goodConn =
      Except.ok { err := some "relation 'account' not found", engine := { relations := [] },
                  conn := goodConn } ∧
    (((goodConn.WriteResult 0 1).1 = none →
      (some "relation 'account' not found" : Option String) ≠ none →
      ({ relations := [] } : Engine) = { relations := [] }) ∧
    (({ relations := [] } : Engine) ≠ { relations := [] } →
      ∃ d0 n r, dropTableAccount.Decl = [d0] ∧ d0.Token = Token.TableToken ∧ d0.Decl = [n] ∧
        Engine.relation { relations := [] } n.Lexeme = some r ∧
        ({ relations := [] } : Engine) = Engine.drop { relations := [] } n.Lexeme ∧
        some "relation 'account' not found" = (goodConn.WriteResult 0 1).1 ∧
        goodConn = (goodConn.WriteResult 0 1).2)) :=
  ⟨rfl, dropExecutor_error_frame { relations := [] } dropTableAccount goodConn
    { err := some "relation 'account' not found", engine := { relations := [] },
      conn := goodConn } rfl⟩

/-! ## Theorems: transactions -/

/-- C6: `Conn.BeginTx` returns an error, and no transaction, exactly when the requested
isolation level is not the default one; with the default level it returns, without
error, a transaction bound to the same session. -/
theorem BeginTx_isolation (c : Conn) (opts : TxOptions) :
    ((c.BeginTx opts).2 ≠ none ↔ opts.Isolation ≠ LevelDefault) ∧
    ((c.BeginTx opts).2 ≠ none → (c.BeginTx opts).1 = none) ∧
    (opts.Isolation = LevelDefault →
      c.BeginTx opts = (some { conn := c }, none) ∧
      ∃ tx, (c.BeginTx opts).1 = some tx ∧ tx.conn = c) := by
  by_cases h : opts.Isolation = LevelDefault
  · simp [Conn.BeginTx, Conn.Begin, NewTransaction, h]
  · simp [Conn.BeginTx, h]

/-- Witness of C6: a session and a request with the default isolation level. -/
theorem BeginTx_isolation_witness :
    (((Conn.mk 7 0).BeginTx { Isolation := 0, ReadOnly := false }).2 ≠ none ↔
      (0 : Int) ≠ LevelDefault) ∧
    (((Conn.mk 7 0).BeginTx { Isolation := 0, ReadOnly := false }).2 ≠ none →
      ((Conn.mk 7 0).BeginTx { Isolation := 0, ReadOnly := false }).1 = none) ∧
    ((0 : Int) = LevelDefault →
      (Conn.mk 7 0).BeginTx { Isolation := 0, ReadOnly := false } =
        (some { conn := Conn.mk 7 0 }, none) ∧
      ∃ tx, ((Conn.mk 7 0).BeginTx { Isolation := 0, ReadOnly := false }).1 = some tx ∧
        tx.conn = Conn.mk 7 0) :=
  BeginTx_isolation (Conn.mk 7 0) { Isolation := 0, ReadOnly := false }

/-- C7, at the failing input: a read-only request with the default isolation level gets,
without error, the same transaction as a read-write request; `BeginTx` never reads the
read-only flag and a `Tx` has no field to carry it. -/
theorem BeginTx_ignores_ReadOnly (c : Conn) :
    c.BeginTx { Isolation := LevelDefault, ReadOnly := true } = (some { conn := c }, none) ∧
    c.BeginTx { Isolation := LevelDefault, ReadOnly := true } =
      c.BeginTx { Isolation := LevelDefault, ReadOnly := false } ∧
    ∀ opts : TxOptions, c.BeginTx opts = c.BeginTx { opts with ReadOnly := false } := by
  refine ⟨rfl, rfl, fun opts => rfl⟩

/-! ## Theorems: splitting strings -/

/-- A separator that does not occur is not found. -/
theorem cut_of_not_mem (sep : Char) (a : List Char) (h : sep ∉ a) : cut sep a = none := by
  induction a with
  | nil => rfl
  | cons c cs ih =>
    have hc : c ≠ sep := fun hcs => h (hcs ▸ List.mem_cons_self _ _)
    have hcs : sep ∉ cs := fun hm => h (List.mem_cons_of_mem _ hm)
    simp [cut, hc, ih hcs]

/-- The first occurrence of the separator is where the text is cut. -/
theorem cut_append (sep : Char) (a b : List Char) (h : sep ∉ a) :
    cut sep (a ++ sep :: b) = some (a, b) := by
  induction a with
  | nil => simp [cut]
  | cons c cs ih =>
    have hc : c ≠ sep := fun hcs => h (hcs ▸ List.mem_cons_self _ _)
    have hcs : sep ∉ cs := fun hm => h (List.mem_cons_of_mem _ hm)
    simp [cut, hc, ih hcs]

/-- A found separator does not occur in the text before it, and the text is the two
parts around it. -/
theorem cut_some (sep : Char) (s a b : List Char) (h : cut sep s = some (a, b)) :
    sep ∉ a ∧ s = a ++ sep :: b := by
  induction s generalizing a with
  | nil => simp [cut] at h
  | cons c cs ih =>
    by_cases hc : c = sep
    · simp [cut, hc] at h
      obtain ⟨rfl, rfl⟩ := h
      simp [hc]
    · cases hcut : cut sep cs with
      | none => simp [cut, hc, hcut] at h
      | some ab =>
        obtain ⟨a', b'⟩ := ab
        simp [cut, hc, hcut] at h
        obtain ⟨rfl, rfl⟩ := h
        obtain ⟨hn, hs⟩ := ih a' hcut
        refine ⟨?_, by simp [hs]⟩
        intro hm
        rcases List.mem_cons.mp hm with hm | hm
        · exact hc hm.symm
        · exact hn hm

/-- A text without the separator is one piece. -/
theorem genSplit_of_not_mem (sep : Char) (k : Nat) (a : List Char) (h : sep ∉ a) :
    genSplit sep k a = [a] := by
  cases k with
  | zero => rfl
  | succ k => simp [genSplit, cut_of_not_mem sep a h]

/-- The first piece ends at the first separator. -/
theorem genSplit_append (sep : Char) (k : Nat) (a b : List Char) (h : sep ∉ a) :
    genSplit sep (k + 1) (a ++ sep :: b) = a :: genSplit sep k b := by
  simp [genSplit, cut_append sep a b h]

/-- When no separator is found, there is none. -/
theorem not_mem_of_cut_none (sep : Char) (s : List Char) (h : cut sep s = none) :
    sep ∉ s := by
  induction s with
  | nil => simp
  | cons c cs ih =>
    by_cases hc : c = sep
    · simp [cut, hc] at h
    · cases hcut : cut sep cs with
      | none =>
        intro hm
        rcases List.mem_cons.mp hm with hm | hm
        · exact hc hm.symm
        · exact ih hcut hm
      | some ab => simp [cut, hc, hcut] at h

/-- The characters before the first separator, read off one by one. -/
theorem takeWhile_append_sep (sep : Char) (a b : List Char) (h : sep ∉ a) :
    (a ++ sep :: b).takeWhile (fun ch => ch != sep) = a := by
  induction a with
  | nil => simp [List.takeWhile_cons]
  | cons c cs ih =>
    have hc : c ≠ sep := fun hcs => h (hcs ▸ List.mem_cons_self _ _)
    have hcs : sep ∉ cs := fun hm => h (List.mem_cons_of_mem _ hm)
    simp [List.takeWhile_cons, hc, ih hcs]

/-- Without a separator every character is read. -/
theorem takeWhile_of_not_mem (sep : Char) (a : List Char) (h : sep ∉ a) :
    a.takeWhile (fun ch => ch != sep) = a := by
  induction a with
  | nil => rfl
  | cons c cs ih =>
    have hc : c ≠ sep := fun hcs => h (hcs ▸ List.mem_cons_self _ _)
    have hcs : sep ∉ cs := fun hm => h (List.mem_cons_of_mem _ hm)
    simp [List.takeWhile_cons, hc, ih hcs]

/-- `SplitN` with a count of two, on a text with a separator: the part before the
first separator and the rest. -/
theorem SplitN_two (s a b : String) (sep : Char) (hs : s.data = a.data ++ sep :: b.data)
    (h : sep ∉ a.data) : SplitN s sep 2 = [a, b] := by
  have h1 : ((2 : Int).toNat - 1) = 0 + 1 := by decide
  simp only [SplitN, hs, h1, genSplit_append sep 0 _ _ h]
  simp [genSplit]

/-- `SplitN` with a count of two, on a text without separator: one piece. -/
theorem SplitN_two_whole (s : String) (sep : Char) (h : sep ∉ s.data) :
    SplitN s sep 2 = [s] := by
  simp [SplitN, genSplit_of_not_mem sep _ _ h]

/-- `SplitN` with a count of three, on a text with two separators. -/
theorem SplitN_three (s a b c : String) (sep : Char)
    (hs : s.data = a.data ++ sep :: (b.data ++ sep :: c.data))
    (ha : sep ∉ a.data) (hb : sep ∉ b.data) : SplitN s sep 3 = [a, b, c] := by
  have h1 : ((3 : Int).toNat - 1) = 1 + 1 := by decide
  simp only [SplitN, hs, h1, genSplit_append sep _ _ _ ha, genSplit_append sep _ _ _ hb]
  simp [genSplit]

/-- The characters of the options part. -/
theorem joinOptions_cons_data (o : String) (os : List String) :
    (joinOptions (o :: os)).data = ',' :: (o.data ++ (joinOptions os).data) := by
  simp [joinOptions, String.data_append]

/-- `Split` on commas gives back the address and the options. -/
theorem Split_joinOptions (opts : List String) (s addr : String)
    (hs : s.data = addr.data ++ (joinOptions opts).data) (haddr : ',' ∉ addr.data)
    (hopts : ∀ o ∈ opts, ',' ∉ o.data) : Split s ',' = addr :: opts := by
  have key : ∀ (opts : List String) (a : List Char), ',' ∉ a →
      (∀ o ∈ opts, ',' ∉ o.data) →
      genSplit ',' ((a ++ (joinOptions opts).data).count ',') (a ++ (joinOptions opts).data)
        = a :: opts.map String.data := by
    intro opts
    induction opts with
    | nil =>
      intro a ha _
      have hd : (joinOptions []).data = [] := rfl
      rw [hd, List.append_nil]
      exact genSplit_of_not_mem ',' _ a ha
    | cons o os ih =>
      intro a ha hos
      have ho : ',' ∉ o.data := hos o (List.mem_cons_self _ _)
      have hos' : ∀ o' ∈ os, ',' ∉ o'.data := fun o' hm => hos o' (List.mem_cons_of_mem _ hm)
      rw [joinOptions_cons_data]
      have hcount : (a ++ ',' :: (o.data ++ (joinOptions os).data)).count ','
          = (o.data ++ (joinOptions os).data).count ',' + 1 := by
        rw [List.count_append, List.count_cons_self, List.count_eq_zero.mpr ha]
        omega
      rw [hcount, genSplit_append ',' _ a _ ha, ih o.data ho hos']
      rfl
  have hmap : ∀ l : List String, (l.map String.data).map String.mk = l := by
    intro l
    induction l with
    | nil => rfl
    | cons x xs ih => simp [ih]
  have hneg : ((-1 : Int) < 0) := by decide
  have hne : ¬ ((-1 : Int) = 0) := by decide
  simp only [Split, SplitN, hs, hne, hneg, if_true, if_false]
  rw [key opts addr.data haddr hopts]
  simp [hmap]

/-- The key that the loop of `parseConnectionURI` reads from an option is the text
before its first `=`, or the whole option. -/
theorem optionKey_eq (o : String) :
    (match SplitN o '=' 2 with
      | [k, _] => k
      | _ => o) = optionKey o := by
  have h1 : ((2 : Int).toNat - 1) = 0 + 1 := by decide
  cases hcut : cut '=' o.data with
  | none =>
    have hn := not_mem_of_cut_none '=' o.data hcut
    rw [SplitN_two_whole o '=' hn]
    simp [optionKey, takeWhile_of_not_mem '=' o.data hn]
  | some ab =>
    obtain ⟨a, b⟩ := ab
    obtain ⟨hn, hs⟩ := cut_some '=' o.data a b hcut
    have hsplit : SplitN o '=' 2 = [String.mk a, String.mk b] :=
      SplitN_two o (String.mk a) (String.mk b) '=' hs hn
    rw [hsplit]
    simp [optionKey, hs, takeWhile_append_sep '=' a b hn]

/-- An option whose key is neither `laddr` nor `timeout` makes the loop over the
options end with an error. -/
theorem parseOptions_unknown (ParseDuration : String → Except String Int)
    (opts : List String) (c : connConf)
    (h : ∃ o ∈ opts, optionKey o ≠ "laddr" ∧ optionKey o ≠ "timeout") :
    ∃ err, parseOptions ParseDuration c opts = Except.error err := by
  induction opts generalizing c with
  | nil =>
    obtain ⟨o, hm, _⟩ := h
    cases hm
  | cons o os ih =>
    have htail : (optionKey o = "laddr" ∨ optionKey o = "timeout") →
        ∃ o' ∈ os, optionKey o' ≠ "laddr" ∧ optionKey o' ≠ "timeout" := by
      intro hk
      obtain ⟨o', hm, h1, h2⟩ := h
      rcases List.mem_cons.mp hm with rfl | hm
      · rcases hk with hk | hk
        · exact absurd hk h1
        · exact absurd hk h2
      · exact ⟨o', hm, h1, h2⟩
    unfold parseOptions
    simp only [optionKey_eq]
    by_cases hl : optionKey o = "laddr"
    · rw [if_pos hl]
      exact ih _ (htail (Or.inl hl))
    · rw [if_neg hl]
      by_cases ht : optionKey o = "timeout"
      · rw [if_pos ht]
        split
        · exact ⟨_, rfl⟩
        · exact ih _ (htail (Or.inr ht))
      · rw [if_neg ht]
        exact ⟨_, rfl⟩

/-! ## Theorems: the connection string -/

/-- A string with a character is not the empty string. -/
theorem ne_empty_of_mem (s : String) (ch : Char) (h : ch ∈ s.data) : s ≠ "" := by
  intro hs
  rw [hs] at h
  cases h

/-- The database part, when it has its two slashes. -/
theorem parseDatabasePart_three (c : connConf) (s db user passwd : String)
    (h : SplitN s '/' 3 = [db, user, passwd]) :
    parseDatabasePart c [s] =
      Except.ok (some { c with Db := db, User := user, Password := passwd }, none) := by
  simp [parseDatabasePart, index, h, bind, Except.bind, pure, Except.pure]

/-- The run of `parseConnectionURI` on a connection string with a protocol part. -/
theorem parseConnectionURI_protocol (ParseDuration : String → Except String Int)
    (uri pre rest proto tail addr : String) (opts : List String) (hne : uri ≠ "")
    (h1 : SplitN uri '*' 2 = [pre, rest]) (h2 : SplitN pre ':' 2 = [proto, tail])
    (h3 : Split tail ',' = addr :: opts) :
    parseConnectionURI ParseDuration uri =
      match parseOptions ParseDuration { Proto := proto, Addr := addr } opts with
      | Except.error err => Except.ok (none, some err)
      | Except.ok c => parseDatabasePart c [rest] := by
  simp only [parseConnectionURI, if_neg hne, h1, h2, h3, index, List.get?, List.length,
    bind, Except.bind, pure, Except.pure, List.drop]
  simp

/-- The run of `parseConnectionURI` on a connection string without protocol part. -/
theorem parseConnectionURI_database (ParseDuration : String → Except String Int)
    (uri : String) (hne : uri ≠ "") (h1 : SplitN uri '*' 2 = [uri]) :
    parseConnectionURI ParseDuration uri = parseDatabasePart {} [uri] := by
  simp [parseConnectionURI, if_neg hne, h1]

/-- The options part has no character that its options do not have, the comma apart. -/
theorem not_mem_joinOptions (ch : Char) (hch : ch ≠ ',') (opts : List String)
    (h : ∀ o ∈ opts, ch ∉ o.data) : ch ∉ (joinOptions opts).data := by
  induction opts with
  | nil =>
    intro hm
    cases hm
  | cons o os ih =>
    rw [joinOptions_cons_data]
    intro hm
    rcases List.mem_cons.mp hm with hm | hm
    · exact hch hm
    · rcases List.mem_append.mp hm with hm | hm
      · exact h o (List.mem_cons_self _ _) hm
      · exact ih (fun o' ho' => h o' (List.mem_cons_of_mem _ ho')) hm

/-- When the connection string does not parse, `Open` returns the error of the parse
and touches neither the registry nor the heap. -/
theorem Open_parse_error (ParseDuration : String → Except String Int) (rs : Driver)
    (h : Heap) (env : OpenEnv) (dsn : String) (c : Option connConf) (err : String)
    (hp : parseConnectionURI ParseDuration dsn = Except.ok (c, some err)) :
    Driver.Open ParseDuration rs h env dsn =
      Except.ok { conn := none, err := some err, driver := rs, heap := h } := by
  simp [Driver.Open, hp, bind, Except.bind, pure, Except.pure]

/-- C8: on a connection string `PROTO:ADDR,OPTIONS*REST` with an option whose key is
neither `laddr` nor `timeout`, `parseConnectionURI` returns an error and no
configuration, and `Driver.Open` returns that error, no session, and leaves the registry
and the heap as they were. -/
theorem parseConnectionURI_unknown_option (ParseDuration : String → Except String Int)
    (proto addr rest : String) (opts : List String) (rs : Driver) (h : Heap) (env : OpenEnv)
    (hproto : ':' ∉ proto.data ∧ '*' ∉ proto.data)
    (haddr : ',' ∉ addr.data ∧ '*' ∉ addr.data)
    (hopts : ∀ o ∈ opts, ',' ∉ o.data ∧ '*' ∉ o.data)
    (hunknown : ∃ o ∈ opts, optionKey o ≠ "laddr" ∧ optionKey o ≠ "timeout") :
    ∃ err,
      parseConnectionURI ParseDuration
          (proto ++ ":" ++ addr ++ joinOptions opts ++ "*" ++ rest) =
        Except.ok (none, some err) ∧
      Driver.Open ParseDuration rs h env
          (proto ++ ":" ++ addr ++ joinOptions opts ++ "*" ++ rest) =
        Except.ok { conn := none, err := some err, driver := rs, heap := h } := by
  have hcolon : (":" : String).data = [':'] := rfl
  have hstar : ("*" : String).data = ['*'] := rfl
  have hjoin : '*' ∉ (joinOptions opts).data :=
    not_mem_joinOptions '*' (by decide) opts (fun o ho => (hopts o ho).2)
  have hpre : '*' ∉ (proto ++ ":" ++ addr ++ joinOptions opts).data := by
    simp only [String.data_append, hcolon, List.mem_append, List.mem_singleton, not_or]
    exact ⟨⟨⟨hproto.2, by decide⟩, haddr.2⟩, hjoin⟩
  have h1 : SplitN (proto ++ ":" ++ addr ++ joinOptions opts ++ "*" ++ rest) '*' 2 =
      [proto ++ ":" ++ addr ++ joinOptions opts, rest] :=
    SplitN_two _ _ _ '*' (by simp [String.data_append, hstar]) hpre
  have h2 : SplitN (proto ++ ":" ++ addr ++ joinOptions opts) ':' 2 =
      [proto, addr ++ joinOptions opts] :=
    SplitN_two _ _ _ ':' (by simp [String.data_append, hcolon]) hproto.1
  have h3 : Split (addr ++ joinOptions opts) ',' = addr :: opts :=
    Split_joinOptions opts _ addr (by simp [String.data_append]) haddr.1
      (fun o ho => (hopts o ho).1)
  have hne : proto ++ ":" ++ addr ++ joinOptions opts ++ "*" ++ rest ≠ "" :=
    ne_empty_of_mem _ '*' (by simp [String.data_append, hstar])
  obtain ⟨err, herr⟩ :=
    parseOptions_unknown ParseDuration opts { Proto := proto, Addr := addr } hunknown
  have hparse : parseConnectionURI ParseDuration
      (proto ++ ":" ++ addr ++ joinOptions opts ++ "*" ++ rest) =
        Except.ok (none, some err) := by
    rw [parseConnectionURI_protocol ParseDuration _ _ rest proto _ addr opts hne h1 h2 h3,
      herr]
  exact ⟨err, hparse, Open_parse_error ParseDuration rs h env _ none err hparse⟩

/-- Witness of C8: the connection string
`tcp:127.0.0.1:3306,laddr=1.2.3.4:0,compress*db/user/pass`. -/
theorem parseConnectionURI_unknown_option_witness :
    ∃ err,
      parseConnectionURI (fun _ => Except.error "time: invalid duration")
          "tcp:127.0.0.1:3306,laddr=1.2.3.4:0,compress*db/user/pass" =
        Except.ok (none, some err) ∧
      Driver.Open (fun _ => Except.error "time: invalid duration") NewDriver Heap.empty
          { engineNewErr := none, driverConn := 0, endpointNewErr := none }
          "tcp:127.0.0.1:3306,laddr=1.2.3.4:0,compress*db/user/pass" =
        Except.ok { conn := none, err := some err, driver := NewDriver, heap := Heap.empty } :=
  parseConnectionURI_unknown_option (fun _ => Except.error "time: invalid duration")
    "tcp" "127.0.0.1:3306" "db/user/pass" ["laddr=1.2.3.4:0", "compress"] NewDriver Heap.empty
    { engineNewErr := none, driverConn := 0, endpointNewErr := none }
    (by decide) (by decide) (by decide) ⟨"compress", by decide, by decide, by decide⟩

/-- C9: `parseConnectionURI` on `DBNAME/USER/PASSWD` returns, without error, the
configuration with these three fields and every other field empty or zero, and on
`PROTO:ADDR*DBNAME/USER/PASSWD` the same three fields with the protocol and the
address. -/
theorem parseConnectionURI_forms (ParseDuration : String → Except String Int)
    (db user passwd : String)
    (hdb : '/' ∉ db.data ∧ '*' ∉ db.data) (huser : '/' ∉ user.data ∧ '*' ∉ user.data)
    (hpasswd : '*' ∉ passwd.data) :
    parseConnectionURI ParseDuration (db ++ "/" ++ user ++ "/" ++ passwd) =
      Except.ok (some { Proto := "", Addr := "", Laddr := "", Db := db, Password := passwd,
                        User := user, Timeout := 0 }, none) ∧
    ∀ proto addr : String, ':' ∉ proto.data ∧ '*' ∉ proto.data →
      ',' ∉ addr.data ∧ '*' ∉ addr.data →
      parseConnectionURI ParseDuration
          (proto ++ ":" ++ addr ++ "*" ++ db ++ "/" ++ user ++ "/" ++ passwd) =
        Except.ok (some { Proto := proto, Addr := addr, Laddr := "", Db := db,
                          Password := passwd, User := user, Timeout := 0 }, none) := by
  have hcolon : (":" : String).data = [':'] := rfl
  have hstar : ("*" : String).data = ['*'] := rfl
  have hslash : ("/" : String).data = ['/'] := rfl
  have hdup : SplitN (db ++ "/" ++ user ++ "/" ++ passwd) '/' 3 = [db, user, passwd] :=
    SplitN_three _ db user passwd '/' (by simp [String.data_append, hslash]) hdb.1 huser.1
  constructor
  · have hwhole : '*' ∉ (db ++ "/" ++ user ++ "/" ++ passwd).data := by
      simp only [String.data_append, hslash, List.mem_append, List.mem_singleton, not_or]
      exact ⟨⟨⟨⟨hdb.2, by decide⟩, huser.2⟩, by decide⟩, hpasswd⟩
    have hne : db ++ "/" ++ user ++ "/" ++ passwd ≠ "" :=
      ne_empty_of_mem _ '/' (by simp [String.data_append, hslash])
    rw [parseConnectionURI_database ParseDuration _ hne (SplitN_two_whole _ '*' hwhole),
      parseDatabasePart_three _ _ db user passwd hdup]
  · intro proto addr hproto haddr
    have hpre : '*' ∉ (proto ++ ":" ++ addr).data := by
      simp only [String.data_append, hcolon, List.mem_append, List.mem_singleton, not_or]
      exact ⟨⟨hproto.2, by decide⟩, haddr.2⟩
    have h1 : SplitN (proto ++ ":" ++ addr ++ "*" ++ db ++ "/" ++ user ++ "/" ++ passwd)
        '*' 2 = [proto ++ ":" ++ addr, db ++ "/" ++ user ++ "/" ++ passwd] :=
      SplitN_two _ _ _ '*' (by simp [String.data_append, hstar]) hpre
    have h2 : SplitN (proto ++ ":" ++ addr) ':' 2 = [proto, addr] :=
      SplitN_two _ _ _ ':' (by simp [String.data_append, hcolon]) hproto.1
    have h3 : Split addr ',' = addr :: [] :=
      Split_joinOptions [] addr addr (by simp [joinOptions]) haddr.1
        (fun o ho => absurd ho (List.not_mem_nil o))
    have hne : proto ++ ":" ++ addr ++ "*" ++ db ++ "/" ++ user ++ "/" ++ passwd ≠ "" :=
      ne_empty_of_mem _ '*' (by simp [String.data_append, hstar])
    rw [parseConnectionURI_protocol ParseDuration _ _ _ proto _ addr [] hne h1 h2 h3]
    simp only [parseOptions]
    rw [parseDatabasePart_three _ _ db user passwd hdup]

/-- Witness of C9: the connection strings `db/user/pa/ss` and
`tcp:127.0.0.1:3306*db/user/pa/ss`. -/
theorem parseConnectionURI_forms_witness :
    parseConnectionURI (fun _ => Except.error "time: invalid duration") "db/user/pa/ss" =
      Except.ok (some { Proto := "", Addr := "", Laddr := "", Db := "db", Password := "pa/ss",
                        User := "user", Timeout := 0 }, none) ∧
    parseConnectionURI (fun _ => Except.error "time: invalid duration")
        "tcp:127.0.0.1:3306*db/user/pa/ss" =
      Except.ok (some { Proto := "tcp", Addr := "127.0.0.1:3306", Laddr := "", Db := "db",
                        Password := "pa/ss", User := "user", Timeout := 0 }, none) :=
  ⟨(parseConnectionURI_forms (fun _ => Except.error "time: invalid duration")
      "db" "user" "pa/ss" (by decide) (by decide) (by decide)).1,
   (parseConnectionURI_forms (fun _ => Except.error "time: invalid duration")
      "db" "user" "pa/ss" (by decide) (by decide) (by decide)).2
      "tcp" "127.0.0.1:3306" (by decide) (by decide)⟩

/-! ## Theorems: the registry of servers -/

/-- `SplitN` with a count of two gives one piece or two. -/
theorem SplitN_two_cases (s : String) (sep : Char) :
    SplitN s sep 2 = [s] ∨ ∃ a b, SplitN s sep 2 = [a, b] := by
  cases hcut : cut sep s.data with
  | none => exact Or.inl (SplitN_two_whole s sep (not_mem_of_cut_none sep s.data hcut))
  | some ab =>
    obtain ⟨a, b⟩ := ab
    obtain ⟨hn, hs⟩ := cut_some sep s.data a b hcut
    exact Or.inr ⟨String.mk a, String.mk b, SplitN_two s (String.mk a) (String.mk b) sep hs hn⟩

/-- The loop of `genSplit` gives at least one piece. -/
theorem genSplit_cons (sep : Char) (k : Nat) (s : List Char) :
    ∃ x xs, genSplit sep k s = x :: xs := by
  cases k with
  | zero => exact ⟨s, [], rfl⟩
  | succ k =>
    cases hcut : cut sep s with
    | none => exact ⟨s, [], by simp only [genSplit, hcut]⟩
    | some ab => exact ⟨ab.1, genSplit sep k ab.2, by simp only [genSplit, hcut]⟩

/-- `Split` gives at least one piece. -/
theorem Split_cons (s : String) (sep : Char) : ∃ x xs, Split s sep = x :: xs := by
  have hneg : ((-1 : Int) < 0) := by decide
  have hne : ¬ ((-1 : Int) = 0) := by decide
  obtain ⟨x, xs, h⟩ := genSplit_cons sep (List.count sep s.data) s.data
  exact ⟨String.mk x, xs.map String.mk, by
    simp only [Split, SplitN, hne, hneg, if_true, if_false, h, List.map_cons]⟩

/-- The database part is parsed without panic and without error. -/
theorem parseDatabasePart_total (c : connConf) (s : String) :
    ∃ r, parseDatabasePart c [s] = Except.ok r ∧ r.2 = none := by
  rcases hdup : SplitN s '/' 3 with _ | ⟨x, _ | ⟨y, _ | ⟨z, _ | ⟨w, l⟩⟩⟩⟩ <;>
    simp [parseDatabasePart, index, hdup, bind, Except.bind, pure, Except.pure]

/-- The function `parseConnectionURI` never panics: it returns on every string. -/
theorem parseConnectionURI_total (ParseDuration : String → Except String Int)
    (uri : String) : ∃ r, parseConnectionURI ParseDuration uri = Except.ok r := by
  simp only [parseConnectionURI]
  generalize (if uri = "" then "default" else uri) = u
  rcases SplitN_two_cases u '*' with h1 | ⟨a, b, h1⟩
  · obtain ⟨r, hr, _⟩ := parseDatabasePart_total {} u
    exact ⟨r, by simp [h1, hr]⟩
  · rcases SplitN_two_cases a ':' with h2 | ⟨p0, p1, h2⟩
    · exact ⟨_, by simp [h1, h2, index, bind, Except.bind, pure, Except.pure]; rfl⟩
    · obtain ⟨x, xs, h3⟩ := Split_cons p1 ','
      cases hopt : parseOptions ParseDuration { Proto := p0, Addr := x } xs with
      | error err =>
        exact ⟨(none, some err),
          by simp [h1, h2, h3, hopt, index, bind, Except.bind, pure, Except.pure]⟩
      | ok c =>
        obtain ⟨r, hr, _⟩ := parseDatabasePart_total c b
        exact ⟨r, by simp [h1, h2, h3, hopt, hr, index, bind, Except.bind, pure, Except.pure]⟩

/-- The three ways a call of `Open` ends; it never panics.  Either it fails, returns no
session and allocates no `Server` record; or a record is stored under the connection
string and the session is bound to it; or none is stored and a record with a fresh
engine is allocated, stored under the connection string, and the session bound to it. -/
theorem Open_cases (ParseDuration : String → Except String Int) (rs : Driver) (h : Heap)
    (env : OpenEnv) (dsn : String) :
    ∃ out, Driver.Open ParseDuration rs h env dsn = Except.ok out ∧
      ((out.conn = none ∧ out.driver = rs ∧ out.heap.servers = h.servers ∧
          h.engines ≤ out.heap.engines) ∨
       (∃ s, rs.lookup dsn = some s ∧
          out.conn = some { conn := env.driverConn, parent := s } ∧
          out.driver = rs ∧ out.heap = openingConn h s) ∨
       (rs.lookup dsn = none ∧
          out.conn = some { conn := env.driverConn, parent := h.servers.length } ∧
          out.driver = rs.store dsn h.servers.length ∧
          out.heap = openingConn
            { servers := h.servers ++
                [{ endpoint := h.endpoints, engine := h.engines, dsn := dsn, connCount := 0 }],
              engines := h.engines + 1, endpoints := h.endpoints + 1 }
            h.servers.length)) := by
  obtain ⟨r, hr⟩ := parseConnectionURI_total ParseDuration dsn
  by_cases hperr : r.2 = none
  · cases hl : rs.lookup dsn with
    | some s =>
      exact ⟨_, by simp [Driver.Open, hr, hperr, hl, newConn, bind, Except.bind, pure,
        Except.pure]; rfl, Or.inr (Or.inl ⟨s, rfl, rfl, rfl, rfl⟩)⟩
    | none =>
      by_cases he : env.engineNewErr = none
      · by_cases hn : env.endpointNewErr = none
        · exact ⟨_, by simp [Driver.Open, hr, hperr, hl, he, hn, newConn, bind, Except.bind,
            pure, Except.pure]; rfl, Or.inr (Or.inr ⟨rfl, rfl, rfl, rfl⟩)⟩
        · exact ⟨_, by simp [Driver.Open, hr, hperr, hl, he, hn, newConn, bind, Except.bind,
            pure, Except.pure]; rfl, Or.inl ⟨rfl, rfl, rfl, Nat.le_succ _⟩⟩
      · exact ⟨_, by simp [Driver.Open, hr, hperr, hl, he, newConn, bind, Except.bind,
          pure, Except.pure]; rfl, Or.inl ⟨rfl, rfl, rfl, Nat.le_refl _⟩⟩
  · exact ⟨_, by simp [Driver.Open, hr, hperr, bind, Except.bind, pure, Except.pure]; rfl,
      Or.inl ⟨rfl, rfl, rfl, Nat.le_refl _⟩⟩

/-- A successful lookup comes from an entry of the list. -/
theorem mem_of_lookup {β : Type} (k : String) (v : β) (l : List (String × β))
    (h : l.lookup k = some v) : (k, v) ∈ l := by
  induction l with
  | nil => cases h
  | cons p ps ih =>
    obtain ⟨k', v'⟩ := p
    rw [List.lookup_cons] at h
    by_cases hk : k = k'
    · subst hk
      simp only [beq_self_eq_true] at h
      cases h
      exact List.mem_cons_self _ _
    · have hne : (k == k') = false := by simpa using hk
      rw [hne] at h
      exact List.mem_cons_of_mem _ (ih h)

/-- The map read after the map write, at the written key. -/
theorem Driver.lookup_store_self (rs : Driver) (dsn : String) (s : Nat) :
    (rs.store dsn s).lookup dsn = some s := by
  simp [Driver.lookup, Driver.store]

/-- The map read after the map write, at another key. -/
theorem Driver.lookup_store_other (rs : Driver) (dsn k : String) (s : Nat) (hk : k ≠ dsn) :
    (rs.store dsn s).lookup k = rs.lookup k := by
  have hne : (k == dsn) = false := by simpa using hk
  simp only [Driver.lookup, Driver.store, List.lookup_cons, hne]
  exact lookup_filter_other dsn k hk rs.servers

/-- Counting a session changes no engine pointer. -/
theorem bumpConnCount_engine (l : List Server) (s : Nat) :
    (bumpConnCount l s).map Server.engine = l.map Server.engine := by
  induction l generalizing s with
  | nil => rfl
  | cons r rs ih =>
    cases s with
    | zero => rfl
    | succ s => simp [bumpConnCount, ih s]

/-- Counting a session keeps the number of records. -/
theorem bumpConnCount_length (l : List Server) (s : Nat) :
    (bumpConnCount l s).length = l.length := by
  have h := congrArg List.length (bumpConnCount_engine l s)
  simpa using h

/-- Counting a session changes the engine of no record. -/
theorem engineOf_openingConn (h : Heap) (s x : Nat) :
    (openingConn h s).engineOf x = h.engineOf x := by
  simp [Heap.engineOf, openingConn, bumpConnCount_engine]

/-- In a well-formed registry a `Server` record is stored under one connection string. -/
theorem WellFormed.lookup_inj {rs : Driver} {h : Heap} (hwf : WellFormed rs h)
    {k1 k2 : String} {s : Nat} (h1 : rs.lookup k1 = some s) (h2 : rs.lookup k2 = some s) :
    k1 = k2 := by
  have m1 := mem_of_lookup k1 s rs.servers h1
  have m2 := mem_of_lookup k2 s rs.servers h2
  have := List.inj_on_of_nodup_map hwf.2.1 m1 m2 rfl
  exact congrArg Prod.fst this

/-- In a well-formed heap an engine belongs to one `Server` record. -/
theorem WellFormed.engine_inj {rs : Driver} {h : Heap} (hwf : WellFormed rs h)
    {s1 s2 e : Nat} (h1 : h.engineOf s1 = some e) (h2 : h.engineOf s2 = some e) :
    s1 = s2 := by
  unfold Heap.engineOf at h1 h2
  have hlt : s1 < (h.servers.map Server.engine).length := by
    obtain ⟨hlt, _⟩ := List.getElem?_eq_some_iff.mp h1
    exact hlt
  exact List.getElem?_inj hlt hwf.2.2.2.1 (h1.trans h2.symm)

/-- In a well-formed registry every stored pointer leads to a record with an engine. -/
theorem WellFormed.engineOf_lookup {rs : Driver} {h : Heap} (hwf : WellFormed rs h)
    {k : String} {s : Nat} (h1 : rs.lookup k = some s) : ∃ e, h.engineOf s = some e := by
  have hm := mem_of_lookup k s rs.servers h1
  have hlt : s < (h.servers.map Server.engine).length := by
    simpa using hwf.2.2.1 (k, s) hm
  exact ⟨_, List.getElem?_eq_getElem hlt⟩

/-- In a well-formed heap the engine of every record has been created. -/
theorem WellFormed.engine_lt {rs : Driver} {h : Heap} (hwf : WellFormed rs h)
    {s e : Nat} (h1 : h.engineOf s = some e) : e < h.engines :=
  hwf.2.2.2.2 e (List.getElem?_mem h1)

/-- The registry and the heap that `NewDriver` starts from are well formed. -/
theorem WellFormed_NewDriver : WellFormed NewDriver Heap.empty := by
  refine ⟨List.nodup_nil, List.nodup_nil, ?_, List.nodup_nil, ?_⟩
  · intro p hp
    cases hp
  · intro e he
    cases he

/-- A failed `Open`, which allocates no `Server` record, keeps the registry well formed. -/
theorem WellFormed.of_same_servers {rs : Driver} {h : Heap} (hwf : WellFormed rs h)
    (h' : Heap) (hs : h'.servers = h.servers) (he : h.engines ≤ h'.engines) :
    WellFormed rs h' := by
  obtain ⟨w1, w2, w3, w4, w5⟩ := hwf
  refine ⟨w1, w2, ?_, ?_, ?_⟩
  · rw [hs]
    exact w3
  · rw [hs]
    exact w4
  · rw [hs]
    intro e hm
    exact Nat.lt_of_lt_of_le (w5 e hm) he

/-- Counting a session keeps the registry well formed. -/
theorem WellFormed.openingConn {rs : Driver} {h : Heap} (hwf : WellFormed rs h) (s : Nat) :
    WellFormed rs (Inmem.openingConn h s) := by
  obtain ⟨w1, w2, w3, w4, w5⟩ := hwf
  refine ⟨w1, w2, ?_, ?_, ?_⟩
  · intro p hp
    simpa [Inmem.openingConn, bumpConnCount_length] using w3 p hp
  · simpa [Inmem.openingConn, bumpConnCount_engine] using w4
  · simpa [Inmem.openingConn, bumpConnCount_engine] using w5

/-- Allocating a `Server` record with a fresh engine and storing it under a connection
string keeps the registry well formed. -/
theorem WellFormed.store_new {rs : Driver} {h : Heap} (hwf : WellFormed rs h)
    (dsn : String) (ep ep' : Nat) :
    WellFormed (rs.store dsn h.servers.length)
      (Inmem.openingConn
        { servers := h.servers ++
            [{ endpoint := ep, engine := h.engines, dsn := dsn, connCount := 0 }],
          engines := h.engines + 1, endpoints := ep' }
        h.servers.length) := by
  obtain ⟨w1, w2, w3, w4, w5⟩ := hwf
  have hsub : List.Sublist (rs.servers.filter (fun p => p.1 != dsn)) rs.servers :=
    List.filter_sublist _
  refine ⟨?_, ?_, ?_, ?_, ?_⟩
  · simp only [Driver.store, List.map_cons]
    refine List.nodup_cons.mpr ⟨?_, (hsub.map Prod.fst).nodup w1⟩
    intro hm
    obtain ⟨p, hp, hpk⟩ := List.mem_map.mp hm
    have := (List.mem_filter.mp hp).2
    simp [hpk] at this
  · simp only [Driver.store, List.map_cons]
    refine List.nodup_cons.mpr ⟨?_, (hsub.map Prod.snd).nodup w2⟩
    intro hm
    obtain ⟨p, hp, hpk⟩ := List.mem_map.mp hm
    have hlt := w3 p (List.mem_filter.mp hp).1
    omega
  · intro p hp
    simp only [Inmem.openingConn, bumpConnCount_length, List.length_append, List.length_singleton]
    simp only [Driver.store] at hp
    rcases List.mem_cons.mp hp with rfl | hp
    · exact Nat.lt_succ_self _
    · exact Nat.lt_succ_of_lt (w3 p (List.mem_filter.mp hp).1)
  · simp only [Inmem.openingConn, bumpConnCount_engine, List.map_append, List.map_cons,
      List.map_nil]
    refine List.nodup_append.mpr ⟨w4, List.nodup_singleton _, ?_⟩
    intro e he he'
    have hlt := w5 e he
    have : e = h.engines := by simpa using he'
    omega
  · simp only [Inmem.openingConn, bumpConnCount_engine, List.map_append, List.map_cons,
      List.map_nil]
    intro e he
    rcases List.mem_append.mp he with he | he
    · exact Nat.lt_succ_of_lt (w5 e he)
    · have : e = h.engines := by simpa using he
      omega

/-- The engines of the heap after a `Server` record with a fresh engine is allocated. -/
theorem engineOf_alloc (h : Heap) (dsn : String) (ep ep' : Nat) :
    (∀ s e, h.engineOf s = some e →
      (Inmem.openingConn
        { servers := h.servers ++
            [{ endpoint := ep, engine := h.engines, dsn := dsn, connCount := 0 }],
          engines := h.engines + 1, endpoints := ep' }
        h.servers.length).engineOf s = some e) ∧
    (Inmem.openingConn
        { servers := h.servers ++
            [{ endpoint := ep, engine := h.engines, dsn := dsn, connCount := 0 }],
          engines := h.engines + 1, endpoints := ep' }
        h.servers.length).engineOf h.servers.length = some h.engines ∧
    h.engineOf h.servers.length = none := by
  refine ⟨?_, ?_, ?_⟩
  · intro s e hs
    unfold Heap.engineOf at hs
    have hlt : s < (h.servers.map Server.engine).length :=
      (List.getElem?_eq_some_iff.mp hs).1
    rw [engineOf_openingConn]
    simp only [Heap.engineOf, List.map_append]
    rw [List.getElem?_append_left hlt]
    exact hs
  · rw [engineOf_openingConn]
    simp only [Heap.engineOf, List.map_append, List.map_cons, List.map_nil]
    have hlen : (h.servers.map Server.engine).length = h.servers.length := List.length_map _ _
    rw [← hlen]
    exact List.getElem?_concat_length (h.servers.map Server.engine) h.engines
  · simp [Heap.engineOf]

/-- One call of `Open`: it returns; every stored record stays stored under its
connection string; a record that is stored afterwards was stored before, or is a new
record stored under the connection string of the call, which had none; the session
returned is bound to the record stored under the connection string; every record keeps
its engine; and a well-formed registry stays well formed. -/
theorem Open_step (ParseDuration : String → Except String Int) (rs : Driver) (h : Heap)
    (env : OpenEnv) (dsn : String) :
    ∃ out, Driver.Open ParseDuration rs h env dsn = Except.ok out ∧
      (∀ k s, rs.lookup k = some s → out.driver.lookup k = some s) ∧
      (∀ k s, out.driver.lookup k = some s →
        rs.lookup k = some s ∨
        (k = dsn ∧ rs.lookup dsn = none ∧ h.engineOf s = none ∧
          out.heap.engineOf s = some h.engines)) ∧
      (∀ c, out.conn = some c → out.driver.lookup dsn = some c.parent) ∧
      (∀ s e, h.engineOf s = some e → out.heap.engineOf s = some e) ∧
      (WellFormed rs h → WellFormed out.driver out.heap) := by
  obtain ⟨out, hout, hcases⟩ := Open_cases ParseDuration rs h env dsn
  refine ⟨out, hout, ?_⟩
  rcases hcases with ⟨hc, hd, hs, he⟩ | ⟨s, hl, hc, hd, hh⟩ | ⟨hl, hc, hd, hh⟩
  · refine ⟨?_, ?_, ?_, ?_, ?_⟩
    · intro k s hk
      rw [hd]
      exact hk
    · intro k s hk
      rw [hd] at hk
      exact Or.inl hk
    · intro c hcc
      rw [hc] at hcc
      cases hcc
    · intro s e hse
      simpa [Heap.engineOf, hs] using hse
    · intro hwf
      rw [hd]
      exact hwf.of_same_servers out.heap hs he
  · refine ⟨?_, ?_, ?_, ?_, ?_⟩
    · intro k s' hk
      rw [hd]
      exact hk
    · intro k s' hk
      rw [hd] at hk
      exact Or.inl hk
    · intro c hcc
      rw [hc] at hcc
      cases hcc
      rw [hd]
      exact hl
    · intro s' e hse
      rw [hh, engineOf_openingConn]
      exact hse
    · intro hwf
      rw [hd, hh]
      exact hwf.openingConn s
  · obtain ⟨a1, a2, a3⟩ := engineOf_alloc h dsn h.endpoints (h.endpoints + 1)
    refine ⟨?_, ?_, ?_, ?_, ?_⟩
    · intro k s hk
      have hne : k ≠ dsn := by
        intro hkd
        rw [hkd, hl] at hk
        cases hk
      rw [hd, Driver.lookup_store_other rs dsn k _ hne]
      exact hk
    · intro k s hk
      rw [hd] at hk
      by_cases hkd : k = dsn
      · subst hkd
        rw [Driver.lookup_store_self] at hk
        cases hk
        refine Or.inr ⟨rfl, hl, a3, ?_⟩
        rw [hh]
        exact a2
      · rw [Driver.lookup_store_other rs dsn k _ hkd] at hk
        exact Or.inl hk
    · intro c hcc
      rw [hc] at hcc
      cases hcc
      rw [hd]
      exact Driver.lookup_store_self rs dsn _
    · intro s e hse
      rw [hh]
      exact a1 s e hse
    · intro hwf
      rw [hd, hh]
      exact hwf.store_new dsn h.endpoints (h.endpoints + 1)

/-- A sequence of calls of `Open` on a well-formed registry: it returns; the registry
stays well formed; every stored record stays stored under its connection string and
keeps its engine; and every session returned is bound to the record that the registry
holds at the end under the connection string of its call. -/
theorem Opens_sessions (ParseDuration : String → Except String Int)
    (script : List (OpenEnv × String)) (rs : Driver) (h : Heap) (hwf : WellFormed rs h) :
    ∃ sessions rs' h',
      Driver.Opens ParseDuration rs h script = Except.ok (sessions, rs', h') ∧
      WellFormed rs' h' ∧
      (∀ k s, rs.lookup k = some s → rs'.lookup k = some s) ∧
      (∀ s e, h.engineOf s = some e → h'.engineOf s = some e) ∧
      sessions.map Prod.fst = script.map Prod.snd ∧
      (∀ dsn c, (dsn, some c) ∈ sessions → rs'.lookup dsn = some c.parent) := by
  induction script generalizing rs h with
  | nil =>
    exact ⟨[], rs, h, rfl, hwf, fun _ _ hk => hk, fun _ _ hs => hs, rfl,
      fun _ _ hm => absurd hm (List.not_mem_nil _)⟩
  | cons call rest ih =>
    obtain ⟨env, dsn⟩ := call
    obtain ⟨out, hout, p1, _, p3, p4, p5⟩ := Open_step ParseDuration rs h env dsn
    obtain ⟨sessions, rs', h', hrun, hwf', q1, q2, q3, q4⟩ := ih out.driver out.heap (p5 hwf)
    refine ⟨(dsn, out.conn) :: sessions, rs', h', ?_, hwf', ?_, ?_, ?_, ?_⟩
    · simp only [Driver.Opens, hout, hrun]
    · intro k s hk
      exact q1 k s (p1 k s hk)
    · intro s e hs
      exact q2 s e (p4 s e hs)
    · simp only [List.map_cons, q3]
    · intro d c hm
      rcases List.mem_cons.mp hm with heq | hm
      · have hd : d = dsn := congrArg Prod.fst heq
        have hc : some c = out.conn := congrArg Prod.snd heq
        subst hd
        exact q1 d c.parent (p3 c hc.symm)
      · exact q4 d c hm

/-- C10: a call of `Open` returns, never replaces or removes a stored `Server` record,
and stores a new record only under the connection string of the call and only when
none is stored there, with an engine that no record had; the session it returns is
bound to the record stored under its connection string.  On a well-formed registry,
of the sessions returned by any sequence of calls, two with the same connection
string have the same `Server` record and the same engine, and two with different
connection strings have different records and different engines. -/
theorem Open_registry_invariant (ParseDuration : String → Except String Int)
    (rs : Driver) (h : Heap) :
    (∀ env dsn, ∃ out, Driver.Open ParseDuration rs h env dsn = Except.ok out ∧
      (∀ k s, rs.lookup k = some s → out.driver.lookup k = some s) ∧
      (∀ k s, out.driver.lookup k = some s →
        rs.lookup k = some s ∨
        (k = dsn ∧ rs.lookup dsn = none ∧ h.engineOf s = none ∧
          out.heap.engineOf s = some h.engines)) ∧
      (∀ c, out.conn = some c → out.driver.lookup dsn = some c.parent) ∧
      (∀ s e, h.engineOf s = some e → out.heap.engineOf s = some e)) ∧
    (WellFormed rs h →
      (∀ s, h.engineOf s ≠ some h.engines) ∧
      (∀ env dsn out, Driver.Open ParseDuration rs h env dsn = Except.ok out →
        WellFormed out.driver out.heap) ∧
      ∀ script, ∃ sessions rs' h',
        Driver.Opens ParseDuration rs h script = Except.ok (sessions, rs', h') ∧
        WellFormed rs' h' ∧
        sessions.map Prod.fst = script.map Prod.snd ∧
        (∀ k s, rs.lookup k = some s → rs'.lookup k = some s) ∧
        ∀ dsn1 c1 dsn2 c2, (dsn1, some c1) ∈ sessions → (dsn2, some c2) ∈ sessions →
          (dsn1 = dsn2 → c1.parent = c2.parent ∧
            ∃ e, h'.engineOf c1.parent = some e ∧ h'.engineOf c2.parent = some e) ∧
          (dsn1 ≠ dsn2 → c1.parent ≠ c2.parent ∧
            ∃ e1 e2, h'.engineOf c1.parent = some e1 ∧ h'.engineOf c2.parent = some e2 ∧
              e1 ≠ e2)) := by
  refine ⟨?_, fun hwf => ⟨?_, ?_, ?_⟩⟩
  · intro env dsn
    obtain ⟨out, hout, p1, p2, p3, p4, _⟩ := Open_step ParseDuration rs h env dsn
    exact ⟨out, hout, p1, p2, p3, p4⟩
  · intro s hs
    exact Nat.lt_irrefl _ (hwf.engine_lt hs)
  · intro env dsn out hout
    obtain ⟨out', hout', _, _, _, _, p5⟩ := Open_step ParseDuration rs h env dsn
    rw [hout] at hout'
    cases hout'
    exact p5 hwf
  · intro script
    obtain ⟨sessions, rs', h', hrun, hwf', q1, _, q3, q4⟩ :=
      Opens_sessions ParseDuration script rs h hwf
    refine ⟨sessions, rs', h', hrun, hwf', q3, q1, ?_⟩
    intro dsn1 c1 dsn2 c2 hm1 hm2
    have l1 := q4 dsn1 c1 hm1
    have l2 := q4 dsn2 c2 hm2
    obtain ⟨e1, he1⟩ := hwf'.engineOf_lookup l1
    obtain ⟨e2, he2⟩ := hwf'.engineOf_lookup l2
    constructor
    · intro hd
      subst hd
      have hp : c1.parent = c2.parent := Option.some.inj (l1.symm.trans l2)
      refine ⟨hp, e1, he1, ?_⟩
      rw [← hp]
      exact he1
    · intro hd
      have hp : c1.parent ≠ c2.parent := by
        intro hp
        rw [hp] at l1
        exact hd (hwf'.lookup_inj l1 l2)
      refine ⟨hp, e1, e2, he1, he2, ?_⟩
      intro he
      rw [he] at he1
      exact hp (hwf'.engine_inj he1 he2)

/-- Witness of C10: from the registry of `NewDriver`, the calls `Open("TestDrop")`,
`Open("other")`, `Open("TestDrop")`, with the sessions they return. -/
theorem Open_registry_invariant_witness :
    WellFormed NewDriver Heap.empty ∧
    Driver.Opens (fun _ => Except.error "time: invalid duration") NewDriver Heap.empty
        [({ engineNewErr := none, driverConn := 10, endpointNewErr := none }, "TestDrop"),
         ({ engineNewErr := none, driverConn := 11, endpointNewErr := none }, "other"),
         ({ engineNewErr := none, driverConn := 12, endpointNewErr := none }, "TestDrop")] =
      Except.ok
        ([("TestDrop", some { conn := 10, parent := 0 }),
          ("other", some { conn := 11, parent := 1 }),
          ("TestDrop", some { conn := 12, parent := 0 })],
         { servers := [("other", 1), ("TestDrop", 0)] },
         { servers := [{ endpoint := 0, engine := 0, dsn := "TestDrop", connCount := 2 },
                       { endpoint := 1, engine := 1, dsn := "other", connCount := 1 }],
           engines := 2, endpoints := 2 }) ∧
    ∃ sessions rs' h',
      Driver.Opens (fun _ => Except.error "time: invalid duration") NewDriver Heap.empty
        [({ engineNewErr := none, driverConn := 10, endpointNewErr := none }, "TestDrop"),
         ({ engineNewErr := none, driverConn := 11, endpointNewErr := none }, "other"),
         ({ engineNewErr := none, driverConn := 12, endpointNewErr := none }, "TestDrop")] =
        Except.ok (sessions, rs', h') ∧
      WellFormed rs' h' ∧
      sessions.map Prod.fst =
        [({ engineNewErr := none, driverConn := 10, endpointNewErr := none }, "TestDrop"),
         ({ engineNewErr := none, driverConn := 11, endpointNewErr := none }, "other"),
         (({ engineNewErr := none, driverConn := 12, endpointNewErr := none } : OpenEnv),
           "TestDrop")].map Prod.snd ∧
      (∀ k s, NewDriver.lookup k = some s → rs'.lookup k = some s) ∧
      ∀ dsn1 c1 dsn2 c2, (dsn1, some c1) ∈ sessions → (dsn2, some c2) ∈ sessions →
        (dsn1 = dsn2 → c1.parent = c2.parent ∧
          ∃ e, h'.engineOf c1.parent = some e ∧ h'.engineOf c2.parent = some e) ∧
        (dsn1 ≠ dsn2 → c1.parent ≠ c2.parent ∧
          ∃ e1 e2, h'.engineOf c1.parent = some e1 ∧ h'.engineOf c2.parent = some e2 ∧
            e1 ≠ e2) :=
  ⟨WellFormed_NewDriver, rfl,
    ((Open_registry_invariant (fun _ => Except.error "time: invalid duration")
      NewDriver Heap.empty).2 WellFormed_NewDriver).2.2 _⟩

end Inmem
